import Mathlib

/-!
Verification of the FamilyExpensesTracker client logic.

The definitions below are a shallow embedding of the reporting, filtering,
sorting, window-loading, rate-cache, category-ranking and recurring-posting
logic of the application (`src/unnamed/part_001`, first document: the
`FinanceTracker` component and its helpers).  JavaScript numbers are modelled
as rationals (`ℚ`), JavaScript objects used as keyed accumulators are modelled
as insertion-ordered association lists, and the stable `Array.sort` of modern
JavaScript engines is modelled by `List.insertionSort` (a stable sort agrees
with any other stable sort under a consistent comparator).
-/

namespace FamilyExpenses

/-- A rate table: JS object mapping currency code to rate, modelled as an
insertion-ordered association list (`data.conversion_rates`). -/
abbrev Rates := List (String × ℚ)

/-- Lookup `rates[c]`: `none` models JS `undefined`. -/
def lookupRate (rates : Rates) (c : String) : Option ℚ :=
  (rates.find? (fun p => p.1 = c)).map (fun p => p.2)

/-- Models the JS idiom `x || 1`: `undefined` and `0` are falsy and become 1. -/
def jsOr1 (x : Option ℚ) : ℚ :=
  match x with
  | none => 1
  | some r => if r = 0 then 1 else r

/-- A transaction record as stored in the `transactions` collection
(fields written by `addTransaction` / `updateTransaction`). -/
structure Txn where
  id : String
  type : String
  category : String
  originalAmount : ℚ
  originalCurrency : String
  transactionDate : String
  description : String
  baseCurrency : String
  exchangeRateToBase : ℚ
  amountInBaseCurrency : ℚ
  createdAt : Nat
  deriving DecidableEq, Repr

/-- `getYearMonthLocal`: for a date string `YYYY-MM-DD` return `YYYY-MM`
(the source is `dateStr.slice(0, 7)`). -/
def getYearMonthLocal (dateStr : String) : String := dateStr.take 7

/-- Month (`YYYY-MM`) of a transaction. -/
def ymOf (t : Txn) : String := getYearMonthLocal t.transactionDate

/-- Models JS `s.includes(sub)`: contiguous-substring test. -/
def strIncludes (s sub : String) : Bool := decide (sub.data <:+: s.data)

/-- Code-unit lexicographic strict comparison of char lists, mirroring the
JavaScript `<` on strings.  Structural, so that concrete comparisons
evaluate inside the kernel. -/
def charListLt : List Char → List Char → Bool
  | _, [] => false
  | [], _ :: _ => true
  | a :: as, b :: bs =>
      if a < b then true else if b < a then false else charListLt as bs

/-- JS `a < b` on strings. -/
def strLtB (a b : String) : Bool := charListLt a.data b.data

/-- JS `a <= b` on strings, i.e. `!(b < a)`. -/
def strLeB (a b : String) : Bool := !(strLtB b a)

/-- JS `a >= b` on strings, i.e. `!(a < b)`. -/
def strGeB (a b : String) : Bool := !(strLtB a b)

/-- The filtering stage of the `filteredTransactions` memo: the three
sequential conditional `filter` calls (months, categories, description). -/
def filterStage (selectedMonths selectedCategories : List String)
    (descriptionFilter : String) (l : List Txn) : List Txn :=
  let t1 := if selectedMonths.length > 0 then
      l.filter (fun t => selectedMonths.contains (getYearMonthLocal t.transactionDate))
    else l
  let t2 := if selectedCategories.length > 0 then
      t1.filter (fun t => selectedCategories.contains t.category)
    else t1
  if descriptionFilter ≠ "" then
    t2.filter (fun t => strIncludes t.description.toLower descriptionFilter.toLower)
  else t2

/-- The currency-aware conversion rule used for the displayed amount
(`TransactionList`), for amount-sorting, and inside the `monthlyTrend`
computation: when `originalCurrency` equals the display currency use
`originalAmount`; otherwise `amountInBaseCurrency * (latestRates[dc] || 1)`,
with rate 1 when the rate table is still `null`. -/
def convertForDisplay (rates : Option Rates) (dc : String) (t : Txn) : ℚ :=
  if t.originalCurrency = dc then t.originalAmount
  else t.amountInBaseCurrency *
    (match rates with
     | some rt => jsOr1 (lookupRate rt dc)
     | none => 1)

/-- Sort keys selectable in the transaction table (`requestSort`). -/
inductive SortKey
  | date
  | amount
  | category
  deriving DecidableEq, Repr

/-- Sort direction. -/
inductive SortDir
  | asc
  | desc
  deriving DecidableEq, Repr

/-- Strict comparison of the sort values of the comparator in
`filteredTransactions`: dates and categories compare as strings, amounts
compare through `convertForDisplay` (the `amountInBaseCurrency` key is
replaced by the converted display amount). -/
def keyLt (rates : Option Rates) (dc : String) (key : SortKey) (a b : Txn) : Bool :=
  match key with
  | .date => strLtB a.transactionDate b.transactionDate
  | .amount => decide (convertForDisplay rates dc a < convertForDisplay rates dc b)
  | .category => strLtB a.category b.category

/-- The total preorder realised by the JS comparator
`(a, b) => aValue < bValue ? (asc ? -1 : 1) : aValue > bValue ? (asc ? 1 : -1) : 0`:
a stable comparison sort with comparator `c` sorts by the relation
`c a b ≤ 0`, which for ascending order is `¬ bValue < aValue` and for
descending order `¬ aValue < bValue`. -/
def jsSortLe (rates : Option Rates) (dc : String) (key : SortKey) (dir : SortDir)
    (a b : Txn) : Bool :=
  match dir with
  | .asc => !(keyLt rates dc key b a)
  | .desc => !(keyLt rates dc key a b)

/-- The `filteredTransactions` memo: filter, then a stable sort by the
configured key and direction. -/
def filteredTransactions (selectedMonths selectedCategories : List String)
    (descriptionFilter : String) (key : SortKey) (dir : SortDir)
    (rates : Option Rates) (dc : String) (all : List Txn) : List Txn :=
  List.insertionSort (fun a b => jsSortLe rates dc key dir a b = true)
    (filterStage selectedMonths selectedCategories descriptionFilter all)

/-- Insertion-ordered keyed update, modelling the JS idiom
`acc[k] = f(acc[k])` on an object accumulator: a missing key is appended at
the end with value `f init` (object keys keep insertion order), an existing
key is updated in place. -/
def upsert {V : Type} (init : V) (f : V → V) (k : String) :
    List (String × V) → List (String × V)
  | [] => [(k, f init)]
  | (q, v) :: rest =>
      if q = k then (q, f v) :: rest else (q, v) :: upsert init f k rest

/-- Ordered-association-list lookup (`acc[k]`, `undefined` when absent). -/
def assocGet {V : Type} : List (String × V) → String → Option V
  | [], _ => none
  | (q, v) :: rest, k => if q = k then some v else assocGet rest k

/-- One month bucket of the trend chart: `{ month, expense, income }`. -/
structure MonthBucket where
  expense : ℚ
  income : ℚ
  deriving DecidableEq, Repr

/-- The value returned by the `reportData` memo. `expenseChartData` entries
are `(name, value)` pairs; `trendChartData` entries are keyed by month. -/
structure Report where
  totalExpense : ℚ
  totalIncome : ℚ
  netBalance : ℚ
  expenseChartData : List (String × ℚ)
  trendChartData : List (String × MonthBucket)
  deriving DecidableEq, Repr

/-- The bucket update performed for one transaction inside the
`monthlyTrend` reduce: the amount is the display-converted amount
(`originalAmount` when the currencies match), added to the `expense` field
for type `Expense` and to the `income` field otherwise. -/
def trendStep (rates : Rates) (dc : String) (t : Txn) (b : MonthBucket) : MonthBucket :=
  let amount := convertForDisplay (some rates) dc t
  if t.type = "Expense" then { b with expense := b.expense + amount }
  else { b with income := b.income + amount }

/-- The `reportData` memo.  When `latestRates` is still `null` it returns the
all-zero report.  Otherwise: `totalExpense` and `totalIncome` are the sums of
`amountInBaseCurrency` over the filtered expenses resp. income, multiplied by
`latestRates[displayCurrency] || 1`; `expenseByCategory` accumulates
`amountInBaseCurrency * conversionRate` per category and is emitted sorted
descending by value; `monthlyTrend` buckets the display-converted amounts per
month and is emitted sorted ascending by month string. -/
def reportData (filtered : List Txn) (dc : String) (latestRates : Option Rates) :
    Report :=
  match latestRates with
  | none => ⟨0, 0, 0, [], []⟩
  | some rt =>
    let conversionRate := jsOr1 (lookupRate rt dc)
    let expenses := filtered.filter (fun t => t.type = "Expense")
    let income := filtered.filter (fun t => t.type = "Income")
    let totalExpense :=
      (expenses.foldl (fun acc t => acc + t.amountInBaseCurrency) 0) * conversionRate
    let totalIncome :=
      (income.foldl (fun acc t => acc + t.amountInBaseCurrency) 0) * conversionRate
    let expenseByCategory := expenses.foldl
      (fun acc t =>
        upsert 0 (fun v => v + t.amountInBaseCurrency * conversionRate) t.category acc)
      []
    let expenseChartData :=
      List.insertionSort (fun a b : String × ℚ => b.2 ≤ a.2) expenseByCategory
    let monthlyData := filtered.foldl
      (fun acc t => upsert ⟨0, 0⟩ (trendStep rt dc t) (ymOf t) acc) []
    let trendChartData :=
      List.insertionSort (fun a b : String × MonthBucket => strLeB a.1 b.1 = true)
        monthlyData
    ⟨totalExpense, totalIncome, totalIncome - totalExpense,
      expenseChartData, trendChartData⟩

/-- Fixed remote page size. -/
def TRANSACTIONS_PER_PAGE : Nat := 25

/-- Result of a window-loading routine: the records it stored and the final
`hasMoreTxns` flag. -/
structure InitResult where
  accum : List Txn
  hasMore : Bool
  deriving DecidableEq, Repr

/-- The paging loop of `fetchInitialTransactions`.  `remaining` is the part of
the remote collection (ordered by `transactionDate` descending) that lies
after the current cursor; each `getDocs` call yields the next
`TRANSACTIONS_PER_PAGE` records.  An empty page stops with `hasMore = false`;
a page whose last record's month is older than `prev` stops with
`hasMore = true` after keeping only records with month `≥ prev`; a short page
stops with `hasMore = false`. -/
def fetchInitialLoop (prev : String) : Nat → List Txn → List Txn → InitResult
  | 0, _, accum => ⟨accum, false⟩
  | fuel + 1, remaining, accum =>
    if h : remaining.take TRANSACTIONS_PER_PAGE = [] then ⟨accum, false⟩
    else
      let snap := remaining.take TRANSACTIONS_PER_PAGE
      let kept := snap.filter (fun t => strGeB (ymOf t) prev)
      let accum2 := accum ++ kept
      if strLtB (ymOf (snap.getLast h)) prev then ⟨accum2, true⟩
      else if snap.length < TRANSACTIONS_PER_PAGE then ⟨accum2, false⟩
      else fetchInitialLoop prev fuel (remaining.drop TRANSACTIONS_PER_PAGE) accum2

/-- `fetchInitialTransactions` run against a remote collection whose records
newer than the cursor are `remote` (newest first); `prev` is the previous
calendar month of "today" (`currentAndPreviousYM().prev`).  The fuel
`remote.length + 1` strictly dominates the number of `while` iterations
(every non-final page removes `TRANSACTIONS_PER_PAGE` records), so the
fuelled loop is the `while (true)` loop of the source. -/
def fetchInitialTransactions (prev : String) (remote : List Txn) : InitResult :=
  fetchInitialLoop prev (remote.length + 1) remote []

/-- The merge performed when the live-window subscription (`onSnapshot` on
the latest records) delivers `snapshot`: the snapshot is filtered to months
`≥ prev` and replaces the part of the store in that range, while strictly
older records of the store are kept (after the live block). -/
def mergeLiveSnapshot (prev : String) (snapshot store : List Txn) : List Txn :=
  let live := snapshot.filter (fun t => strGeB (ymOf t) prev)
  let older := store.filter (fun t => strLtB (ymOf t) prev)
  live ++ older

/-- Digit-string to number, as JS `Number` does for a digit sequence;
structural so the kernel can evaluate it. -/
def digitsToNat (l : List Char) : Nat :=
  l.foldl (fun n c => n * 10 + (c.toNat - '0'.toNat)) 0

/-- Zero-pad a month number to two digits (`String(m).padStart(2, '0')`). -/
def pad2 (n : Nat) : String :=
  if n < 10 then "0" ++ toString n else toString n

/-- `prevYearMonth`: the calendar month immediately preceding a `YYYY-MM`
string (the source builds a `Date` at day 1 and decrements its month, which
for well-formed `YYYY-MM` input is plain month arithmetic with year borrow). -/
def prevYearMonth (ym : String) : String :=
  let y := digitsToNat (ym.data.take 4)
  let m := digitsToNat ((ym.data.drop 5).take 2)
  if m = 1 then toString (y - 1) ++ "-12"
  else toString y ++ "-" ++ pad2 (m - 1)

/-- The `reduce` in `fetchMoreTransactions` computing the oldest loaded
month: `min === null || m < min ? m : min` folded over the store. -/
def oldestFold (acc : Option String) (t : Txn) : Option String :=
  match acc with
  | none => some (ymOf t)
  | some mn => if strLtB (ymOf t) mn then some (ymOf t) else some mn

def oldestLoadedMonth (l : List Txn) : Option String :=
  l.foldl oldestFold none

/-- The paging loop of `fetchMoreTransactions`: starting after the last
cursor, keep exactly the records of `targetMonth`; stop when the last record
of a page is older than the target or the page is short, updating `hasMore`
to whether the last record's month is still `≤ target` on a full page. -/
def fetchMoreLoop (targetMonth : String) : Nat → List Txn → List Txn → InitResult
  | 0, _, append => ⟨append, false⟩
  | fuel + 1, remaining, append =>
    if h : remaining.take TRANSACTIONS_PER_PAGE = [] then ⟨append, false⟩
    else
      let snap := remaining.take TRANSACTIONS_PER_PAGE
      let kept := snap.filter (fun t => ymOf t = targetMonth)
      let append2 := append ++ kept
      let lastMonth := ymOf (snap.getLast h)
      if strLtB lastMonth targetMonth = true ∨ snap.length < TRANSACTIONS_PER_PAGE then
        ⟨append2, strLeB lastMonth targetMonth && decide (snap.length = TRANSACTIONS_PER_PAGE)⟩
      else fetchMoreLoop targetMonth fuel (remaining.drop TRANSACTIONS_PER_PAGE) append2

/-- `fetchMoreTransactions`: compute the oldest loaded month of the store,
take the month before it as target, page from the cursor keeping only target
records, and append them to the store.  An empty store returns unchanged
(the code returns early when the reduce yields `null`); the caller guard
`hasMoreTxns` is true on entry. -/
def fetchMoreTransactions (store remote : List Txn) : List Txn × Bool :=
  match oldestLoadedMonth store with
  | none => (store, true)
  | some om =>
    let targetMonth := prevYearMonth om
    let r := fetchMoreLoop targetMonth (remote.length + 1) remote []
    (store ++ r.accum, r.hasMore)

/-- The locally persisted rate cache entry `{ date, rates }`. -/
structure CacheEntry where
  date : String
  rates : Rates
  deriving DecidableEq, Repr

/-- Outcome of the network fetch of the rate API: `ok` is a response with
`result === 'success'`; `fail` covers both a network error (rejected fetch)
and a non-success API response, which take the same `catch` path. -/
inductive RateFetch
  | ok (rates : Rates)
  | fail
  deriving DecidableEq, Repr

/-- Observable outcome of one `manageRateCache` run: the cache entry after
the run, the `latestRates` state after the run, whether the warning toast
was shown, and how many network calls were issued. -/
structure RatesOutcome where
  cache : Option CacheEntry
  latestRates : Option Rates
  warned : Bool
  networkCalls : Nat
  deriving DecidableEq, Repr

/-- `manageRateCache`: with a cached table dated `today`, return it without a
network call; otherwise fetch, persisting and returning fresh rates on
success; on failure show a warning toast and fall back to the stale cached
rates when a cache exists, leaving `latestRates` untouched otherwise. -/
def manageRateCache (today : String) (cache : Option CacheEntry)
    (latest : Option Rates) (fetch : RateFetch) : RatesOutcome :=
  match cache with
  | some e =>
    if e.date = today then ⟨some e, some e.rates, false, 0⟩
    else
      match fetch with
      | .ok r => ⟨some ⟨today, r⟩, some r, false, 1⟩
      | .fail => ⟨some e, some e.rates, true, 1⟩
  | none =>
    match fetch with
    | .ok r => ⟨some ⟨today, r⟩, some r, false, 1⟩
    | .fail => ⟨none, latest, true, 1⟩

/-- The fixed income category list. -/
def INCOME_CATEGORIES : List String := ["Salary", "Extra income"]

/-- The fixed expense category list. -/
def EXPENSE_CATEGORIES : List String :=
  ["Accommodation", "Beauty", "Bills", "Business", "Car", "Charity", "Clothing",
   "Education", "Entertainment", "Food and drinks", "Gifts", "Groceries",
   "Healthcare", "Hobbies", "Home", "Kids", "Other", "Savings", "Shopping",
   "Sport and Hobbies", "Transport", "Travel", "Utilities", "Work"]

/-- The fixed category list for a transaction type
(`type === 'Expense' ? EXPENSE_CATEGORIES : INCOME_CATEGORIES`). -/
def baseCategories (type : String) : List String :=
  if type = "Expense" then EXPENSE_CATEGORIES else INCOME_CATEGORIES

/-- The `sortedCategories` memo: rank the fixed list by usage count
descending with a stable sort (`(a, b) => b.count - a.count`, so the stable
order keeps ties in original list order), take the top 5, and append the
remaining categories sorted alphabetically.  `counts c` models
`counts[c] || 0`. -/
def sortedCategories (type : String) (counts : String → Nat) : List String :=
  let base := baseCategories type
  let ranked := List.insertionSort (fun a b => counts b ≤ counts a) base
  let top5 := ranked.take 5
  let rest := List.insertionSort (fun a b : String => strLeB a b = true)
    (base.filter (fun c => !(top5.contains c)))
  top5 ++ rest

/-- `incrementCategoryUsage` restricted to one type: bump the count of one
category by 1. -/
def incrementCategoryUsage (counts : String → Nat) (category : String) :
    String → Nat :=
  fun c => if c = category then counts c + 1 else counts c

/-- The usage-count state after three Expense/"Groceries" usages and one
Expense/"Transport" usage, starting from empty counts. -/
def usageScenarioCounts : String → Nat :=
  incrementCategoryUsage (incrementCategoryUsage (incrementCategoryUsage
    (incrementCategoryUsage (fun _ => 0) "Groceries") "Groceries") "Groceries")
    "Transport"

/-- A recurring item template (`recurring` collection): a transaction shape
without a transaction date. -/
structure RecurringItem where
  id : String
  type : String
  category : String
  originalAmount : ℚ
  originalCurrency : String
  description : String
  deriving DecidableEq, Repr

/-- The transaction written for one posted recurring item
(`handlePostRecurring`): dated today, with the rate frozen from the current
table (`latestRates[originalCurrency] || 1`). -/
def postedTxn (today : String) (rates : Rates) (item : RecurringItem) : Txn :=
  let rate := jsOr1 (lookupRate rates item.originalCurrency)
  { id := item.id
    type := item.type
    category := item.category
    originalAmount := item.originalAmount
    originalCurrency := item.originalCurrency
    transactionDate := today
    description := item.description
    baseCurrency := "USD"
    exchangeRateToBase := rate
    amountInBaseCurrency := item.originalAmount / rate
    createdAt := 0 }

/-- Result of `handlePostRecurring`: the batch of new transactions and the
count shown in the success toast (`none` models the early return with the
"already added" message, where no batch is written). -/
structure PostResult where
  added : List Txn
  reportedCount : Option Nat
  deriving DecidableEq, Repr

/-- `handlePostRecurring`: skip every recurring item whose description
matches some already-loaded transaction of the current month, write one new
transaction per remaining item, and report how many were added. -/
def handlePostRecurring (today : String) (rates : Rates)
    (allTransactions : List Txn) (recurringItems : List RecurringItem) :
    PostResult :=
  let currentMonthStr := today.take 7
  let currentMonthTransactions :=
    allTransactions.filter (fun t => ymOf t = currentMonthStr)
  let toAdd := recurringItems.filter
    (fun r => !(currentMonthTransactions.any (fun t => t.description = r.description)))
  if toAdd = [] then ⟨[], none⟩
  else ⟨toAdd.map (postedTxn today rates), some toAdd.length⟩

/-! ### Specification-side predicates -/

/-- The specification's keep-predicate: each of the three filters is either
inactive (empty) or matched. -/
def keepPred (selectedMonths selectedCategories : List String)
    (descriptionFilter : String) (t : Txn) : Prop :=
  (selectedMonths = [] ∨ getYearMonthLocal t.transactionDate ∈ selectedMonths) ∧
  (selectedCategories = [] ∨ t.category ∈ selectedCategories) ∧
  (descriptionFilter = "" ∨
    strIncludes t.description.toLower descriptionFilter.toLower = true)

/-- A recurring item is skipped when some already-loaded transaction of the
target month has the same description. -/
def skipsItem (cur : String) (allTxns : List Txn) (r : RecurringItem) : Prop :=
  ∃ t ∈ allTxns, ymOf t = cur ∧ t.description = r.description

instance (cur : String) (allTxns : List Txn) :
    DecidablePred (skipsItem cur allTxns) := fun r => by
  unfold skipsItem
  infer_instance

/-! ### Concrete data used by witnesses and counterexamples -/

/-- A June 2024 rent transaction already loaded in the store. -/
def juneRent : Txn :=
  { id := "t1", type := "Expense", category := "Bills", originalAmount := 1200,
    originalCurrency := "USD", transactionDate := "2024-06-01",
    description := "Rent", baseCurrency := "USD", exchangeRateToBase := 1,
    amountInBaseCurrency := 1200, createdAt := 1 }

/-- A recurring item whose description matches `juneRent`. -/
def rentItem : RecurringItem :=
  { id := "r1", type := "Expense", category := "Bills", originalAmount := 1200,
    originalCurrency := "USD", description := "Rent" }

/-- A recurring item with a fresh description. -/
def netflixItem : RecurringItem :=
  { id := "r2", type := "Expense", category := "Entertainment",
    originalAmount := 15, originalCurrency := "USD", description := "Netflix" }

/-- A June 2024 transaction, used by the loader witnesses. -/
def txnJune : Txn :=
  { id := "j1", type := "Expense", category := "Groceries", originalAmount := 50,
    originalCurrency := "USD", transactionDate := "2024-06-20",
    description := "food", baseCurrency := "USD", exchangeRateToBase := 1,
    amountInBaseCurrency := 50, createdAt := 6 }

/-- A May 2024 transaction. -/
def txnMay : Txn :=
  { id := "m1", type := "Expense", category := "Transport", originalAmount := 20,
    originalCurrency := "USD", transactionDate := "2024-05-10",
    description := "bus", baseCurrency := "USD", exchangeRateToBase := 1,
    amountInBaseCurrency := 20, createdAt := 5 }

/-- An April 2024 transaction. -/
def txnApril : Txn :=
  { id := "a1", type := "Income", category := "Salary", originalAmount := 3000,
    originalCurrency := "USD", transactionDate := "2024-04-28",
    description := "pay", baseCurrency := "USD", exchangeRateToBase := 1,
    amountInBaseCurrency := 3000, createdAt := 4 }

/-- Another April 2024 transaction, older than `txnApril`. -/
def txnApril2 : Txn :=
  { id := "a2", type := "Expense", category := "Bills", originalAmount := 80,
    originalCurrency := "USD", transactionDate := "2024-04-03",
    description := "power", baseCurrency := "USD", exchangeRateToBase := 1,
    amountInBaseCurrency := 80, createdAt := 3 }

/-- A March 2024 transaction. -/
def txnMarch : Txn :=
  { id := "x1", type := "Expense", category := "Car", originalAmount := 10,
    originalCurrency := "USD", transactionDate := "2024-03-15",
    description := "fuel", baseCurrency := "USD", exchangeRateToBase := 1,
    amountInBaseCurrency := 10, createdAt := 2 }

/-- A remote collection (newest first) spanning 2024-06 / 2024-05 / 2024-04. -/
def demoRemote : List Txn := [txnJune, txnMay, txnApril]

/-- An expense recorded in EUR when the stored base-currency amount no
longer matches today's EUR rate: `12 USD * 2 = 24 ≠ 10 EUR`. -/
def txnEuro : Txn :=
  { id := "e1", type := "Expense", category := "Groceries", originalAmount := 10,
    originalCurrency := "EUR", transactionDate := "2024-06-05",
    description := "cheese", baseCurrency := "USD", exchangeRateToBase := 5/6,
    amountInBaseCurrency := 12, createdAt := 7 }

/-- First of two transactions with equal display-converted amounts. -/
def txnTieA : Txn :=
  { id := "s1", type := "Expense", category := "Groceries", originalAmount := 10,
    originalCurrency := "USD", transactionDate := "2024-06-01",
    description := "milk", baseCurrency := "USD", exchangeRateToBase := 1,
    amountInBaseCurrency := 10, createdAt := 8 }

/-- Second of two transactions with equal display-converted amounts. -/
def txnTieB : Txn :=
  { id := "s2", type := "Expense", category := "Transport", originalAmount := 10,
    originalCurrency := "USD", transactionDate := "2024-06-02",
    description := "bus", baseCurrency := "USD", exchangeRateToBase := 1,
    amountInBaseCurrency := 10, createdAt := 9 }

/-! ### Helper lemmas -/

theorem filter_filter_nil {α : Type} {p q : α → Bool}
    (h : ∀ a, p a = true → q a = false) (l : List α) :
    (l.filter p).filter q = [] := by
  apply List.filter_eq_nil_iff.mpr
  intro a ha
  have hp := (List.mem_filter.mp ha).2
  simp [h a hp]

theorem filter_filter_self {α : Type} (p : α → Bool) (l : List α) :
    (l.filter p).filter p = l.filter p := by
  apply List.filter_eq_self.mpr
  intro a ha
  exact (List.mem_filter.mp ha).2

theorem charListLt_iff_lex : ∀ as bs : List Char,
    charListLt as bs = true ↔ List.Lex (· < ·) as bs := by
  intro as
  induction as with
  | nil =>
    intro bs
    cases bs with
    | nil =>
      constructor
      · intro h
        simp [charListLt] at h
      · intro h
        cases h
    | cons b bs =>
      constructor
      · intro _
        exact List.Lex.nil
      · intro _
        rfl
  | cons a as ih =>
    intro bs
    cases bs with
    | nil =>
      constructor
      · intro h
        simp [charListLt] at h
      · intro h
        cases h
    | cons b bs =>
      by_cases hab : a < b
      · constructor
        · intro _
          exact List.Lex.rel hab
        · intro _
          simp [charListLt, hab]
      · by_cases hba : b < a
        · constructor
          · intro h
            rw [show charListLt (a :: as) (b :: bs) = false by
              simp [charListLt, hab, hba]] at h
            cases h
          · intro h
            cases h with
            | rel h1 => exact absurd h1 hab
            | cons h1 => exact absurd hba (lt_irrefl a)
        · have hEq : a = b := le_antisymm (not_lt.mp hba) (not_lt.mp hab)
          subst hEq
          rw [show charListLt (a :: as) (a :: bs) = charListLt as bs by
            simp [charListLt]]
          rw [ih bs]
          constructor
          · intro h
            exact List.Lex.cons h
          · intro h
            cases h with
            | rel h1 => exact absurd h1 (lt_irrefl a)
            | cons h1 => exact h1

theorem strLtB_iff (a b : String) : strLtB a b = true ↔ a < b := by
  rw [String.lt_iff_toList_lt]
  exact charListLt_iff_lex a.data b.data

theorem strLtB_eq_false_iff (a b : String) : strLtB a b = false ↔ b ≤ a := by
  rw [← not_lt, ← strLtB_iff]
  cases h : strLtB a b <;> simp

theorem strLeB_iff (a b : String) : strLeB a b = true ↔ a ≤ b := by
  unfold strLeB
  rw [Bool.not_eq_true', strLtB_eq_false_iff]

theorem strGeB_iff (a b : String) : strGeB a b = true ↔ b ≤ a := by
  unfold strGeB
  rw [Bool.not_eq_true', strLtB_eq_false_iff]

/-! ### C3: live-window snapshot merge preserves older records -/

/-- C3.  When the live-window subscription delivers a snapshot, the records
of the store strictly older than the live window (months `< prev`) are left
exactly unchanged (same records, same relative order), and the records in
the live window (months `≥ prev`) become exactly the snapshot's records in
that range. -/
theorem c3_live_merge_frame (prev : String) (snapshot store : List Txn) :
    (mergeLiveSnapshot prev snapshot store).filter (fun t => strLtB (ymOf t) prev)
        = store.filter (fun t => strLtB (ymOf t) prev) ∧
    (mergeLiveSnapshot prev snapshot store).filter (fun t => strGeB (ymOf t) prev)
        = snapshot.filter (fun t => strGeB (ymOf t) prev) := by
  unfold mergeLiveSnapshot
  have hco : ∀ t : Txn, strGeB (ymOf t) prev = true → strLtB (ymOf t) prev = false := by
    intro t h
    unfold strGeB at h
    simpa using h
  have hco2 : ∀ t : Txn, strLtB (ymOf t) prev = true → strGeB (ymOf t) prev = false := by
    intro t h
    unfold strGeB
    rw [h]
    rfl
  constructor
  · rw [List.filter_append, filter_filter_nil hco, List.nil_append,
      filter_filter_self]
  · rw [List.filter_append, filter_filter_nil hco2, List.append_nil,
      filter_filter_self]

/-! ### C5: the filter keeps a transaction iff all active filters match -/

/-- C5.  A transaction appears in `filteredTransactions` iff it is in the
input set and satisfies the keep-predicate (months empty or month
selected, categories empty or category selected, description filter empty or
a case-insensitive substring of the description); with all three filters
empty the filter stage returns the full set unchanged. -/
theorem c5_filter_iff (ms cs : List String) (ds : String) (key : SortKey)
    (dir : SortDir) (rates : Option Rates) (dc : String) (l : List Txn) :
    (∀ t, t ∈ filteredTransactions ms cs ds key dir rates dc l ↔
        t ∈ l ∧ keepPred ms cs ds t) ∧
    filterStage [] [] "" l = l := by
  constructor
  · intro t
    rw [filteredTransactions, List.mem_insertionSort]
    unfold filterStage keepPred
    rcases ms with _ | ⟨m, ms⟩ <;> rcases cs with _ | ⟨c, cs⟩ <;>
      by_cases hd : ds = "" <;>
      simp [hd, List.mem_filter, List.elem_iff, and_assoc, and_comm, and_left_comm]
  · simp [filterStage]

/-! ### C6: rate cache behaviour -/

/-- C6.  `manageRateCache` returns a same-day cached table with zero network
calls; after a successful fetch a second call the same day uses the cache
and issues no call; on fetch failure it returns the stale cached table with
the warning toast when a cache exists; with no cache it shows the error and
leaves `latestRates` unset. -/
theorem c6_rate_cache (today : String) (e : CacheEntry) (l0 : Option Rates)
    (r : Rates) (f2 : RateFetch) :
    (e.date = today →
      manageRateCache today (some e) l0 f2 = ⟨some e, some e.rates, false, 0⟩) ∧
    ((manageRateCache today none none (.ok r)).networkCalls = 1 ∧
      manageRateCache today (manageRateCache today none none (.ok r)).cache
          (manageRateCache today none none (.ok r)).latestRates f2
        = ⟨some ⟨today, r⟩, some r, false, 0⟩) ∧
    (e.date ≠ today →
      manageRateCache today (some e) l0 .fail = ⟨some e, some e.rates, true, 1⟩) ∧
    manageRateCache today none none .fail = ⟨none, none, true, 1⟩ := by
  refine ⟨fun h => by simp [manageRateCache, h], ⟨rfl, by simp [manageRateCache]⟩,
    fun h => by simp [manageRateCache, h], rfl⟩

/-- Witness for C6 at concrete inputs: a stale-cache failure shows the
warning and keeps the stale rates, and a same-day cache hit issues no
network call. -/
theorem c6_witness :
    manageRateCache "2024-06-02" (some ⟨"2024-06-01", [("EUR", 2)]⟩) none .fail
        = ⟨some ⟨"2024-06-01", [("EUR", 2)]⟩, some [("EUR", 2)], true, 1⟩ ∧
    manageRateCache "2024-06-01" (some ⟨"2024-06-01", [("EUR", 2)]⟩) none .fail
        = ⟨some ⟨"2024-06-01", [("EUR", 2)]⟩, some [("EUR", 2)], false, 0⟩ :=
  ⟨(c6_rate_cache "2024-06-02" ⟨"2024-06-01", [("EUR", 2)]⟩ none [] .fail).2.2.1
      (by decide),
   (c6_rate_cache "2024-06-01" ⟨"2024-06-01", [("EUR", 2)]⟩ none [] .fail).1
      (by decide)⟩

/-! ### C10: report with rates unset -/

/-- C10.  While the rate table is still unset, `reportData` returns zero
totals, zero net balance and empty chart and trend lists for every
transaction set and every filter combination, instead of failing. -/
theorem c10_report_without_rates (ms cs : List String) (ds : String)
    (key : SortKey) (dir : SortDir) (dc : String) (l : List Txn) :
    reportData (filteredTransactions ms cs ds key dir none dc l) dc none
      = ⟨0, 0, 0, [], []⟩ := rfl

/-! ### C9: posting recurring items -/

theorem postedTxn_description (today : String) (rates : Rates)
    (r : RecurringItem) : (postedTxn today rates r).description = r.description :=
  rfl

/-- C9.  `handlePostRecurring` skips exactly the recurring items whose
description matches an already-loaded transaction of the current month,
posts one transaction per non-skipped item, and the reported count is the
number of non-skipped items (nothing is posted or counted when every item is
skipped). -/
theorem c9_post_recurring (today : String) (rates : Rates)
    (allTxns : List Txn) (items : List RecurringItem) :
    (∀ r ∈ items, skipsItem (today.take 7) allTxns r →
        postedTxn today rates r ∉
          (handlePostRecurring today rates allTxns items).added) ∧
    (∀ r ∈ items, ¬ skipsItem (today.take 7) allTxns r →
        postedTxn today rates r ∈
          (handlePostRecurring today rates allTxns items).added) ∧
    (handlePostRecurring today rates allTxns items).added.length
        = (items.filter (fun r => decide (¬ skipsItem (today.take 7) allTxns r))).length ∧
    (handlePostRecurring today rates allTxns items).reportedCount
        = (if (handlePostRecurring today rates allTxns items).added = [] then none
           else some (handlePostRecurring today rates allTxns items).added.length) := by
  have hfe : ∀ r : RecurringItem,
      (!((allTxns.filter (fun t => ymOf t = today.take 7)).any
          (fun t => t.description = r.description)))
        = decide (¬ skipsItem (today.take 7) allTxns r) := by
    intro r
    rw [Bool.eq_iff_iff]
    unfold skipsItem
    simp [List.any_eq_true, List.mem_filter]
  have hfilters : items.filter (fun r =>
        !((allTxns.filter (fun t => ymOf t = today.take 7)).any
          (fun t => t.description = r.description)))
      = items.filter (fun r => decide (¬ skipsItem (today.take 7) allTxns r)) :=
    List.filter_congr (fun r _ => hfe r)
  have hres : handlePostRecurring today rates allTxns items
      = (if (items.filter (fun r => decide (¬ skipsItem (today.take 7) allTxns r))) = []
         then (⟨[], none⟩ : PostResult)
         else ⟨(items.filter
            (fun r => decide (¬ skipsItem (today.take 7) allTxns r))).map
              (postedTxn today rates),
           some (items.filter
            (fun r => decide (¬ skipsItem (today.take 7) allTxns r))).length⟩) := by
    simp only [handlePostRecurring]
    rw [hfilters]
  have hmemAdd : ∀ r : RecurringItem,
      r ∈ items.filter (fun r => decide (¬ skipsItem (today.take 7) allTxns r))
        ↔ r ∈ items ∧ ¬ skipsItem (today.take 7) allTxns r := by
    intro r
    rw [List.mem_filter]
    simp
  refine ⟨?_, ?_, ?_, ?_⟩
  · intro r _ hskip hmem
    rw [hres] at hmem
    by_cases hempty : (items.filter
        (fun r => decide (¬ skipsItem (today.take 7) allTxns r))) = []
    · rw [if_pos hempty] at hmem
      simp at hmem
    · rw [if_neg hempty] at hmem
      simp only [List.mem_map] at hmem
      obtain ⟨q, hq, hpq⟩ := hmem
      have hdesc : q.description = r.description := by
        have := congrArg Txn.description hpq
        simpa [postedTxn_description] using this
      have hq2 := (hmemAdd q).mp hq
      exact hq2.2 (by
        obtain ⟨t, ht, hty, htd⟩ := hskip
        exact ⟨t, ht, hty, htd.trans hdesc.symm⟩)
  · intro r hr hnskip
    rw [hres]
    have hmem : r ∈ items.filter
        (fun r => decide (¬ skipsItem (today.take 7) allTxns r)) :=
      (hmemAdd r).mpr ⟨hr, hnskip⟩
    have hempty : ¬ (items.filter
        (fun r => decide (¬ skipsItem (today.take 7) allTxns r))) = [] := by
      intro h
      rw [h] at hmem
      simp at hmem
    rw [if_neg hempty]
    exact List.mem_map.mpr ⟨r, hmem, rfl⟩
  · rw [hres]
    by_cases hempty : (items.filter
        (fun r => decide (¬ skipsItem (today.take 7) allTxns r))) = []
    · rw [if_pos hempty, hempty]
      rfl
    · rw [if_neg hempty]
      exact List.length_map _ _
  · rw [hres]
    by_cases hempty : (items.filter
        (fun r => decide (¬ skipsItem (today.take 7) allTxns r))) = []
    · rw [if_pos hempty]
      rfl
    · rw [if_neg hempty]
      have : (items.filter
          (fun r => decide (¬ skipsItem (today.take 7) allTxns r))).map
            (postedTxn today rates) ≠ [] := by
        intro h
        exact hempty (List.map_eq_nil_iff.mp h)
      rw [if_neg this]
      rw [List.length_map]

/-- Witness for C9: with one loaded June transaction described "Rent", the
recurring item "Rent" is skipped and "Netflix" is posted. -/
theorem c9_witness :
    (postedTxn "2024-06-15" [("USD", 1)] rentItem ∉
        (handlePostRecurring "2024-06-15" [("USD", 1)] [juneRent]
          [rentItem, netflixItem]).added) ∧
    (postedTxn "2024-06-15" [("USD", 1)] netflixItem ∈
        (handlePostRecurring "2024-06-15" [("USD", 1)] [juneRent]
          [rentItem, netflixItem]).added) :=
  ⟨(c9_post_recurring "2024-06-15" [("USD", 1)] [juneRent]
      [rentItem, netflixItem]).1 rentItem (by decide) (by decide),
   (c9_post_recurring "2024-06-15" [("USD", 1)] [juneRent]
      [rentItem, netflixItem]).2.1 netflixItem (by decide) (by decide)⟩

/-! ### C2: initial window fetch -/

theorem fetchInitialLoop_succ (prev : String) (fuel : Nat)
    (remaining accum : List Txn) :
    fetchInitialLoop prev (fuel + 1) remaining accum
      = if h : remaining.take TRANSACTIONS_PER_PAGE = [] then ⟨accum, false⟩
        else
          if strLtB (ymOf ((remaining.take TRANSACTIONS_PER_PAGE).getLast h)) prev then
            ⟨accum ++ (remaining.take TRANSACTIONS_PER_PAGE).filter
              (fun t => strGeB (ymOf t) prev), true⟩
          else if (remaining.take TRANSACTIONS_PER_PAGE).length
              < TRANSACTIONS_PER_PAGE then
            ⟨accum ++ (remaining.take TRANSACTIONS_PER_PAGE).filter
              (fun t => strGeB (ymOf t) prev), false⟩
          else fetchInitialLoop prev fuel (remaining.drop TRANSACTIONS_PER_PAGE)
            (accum ++ (remaining.take TRANSACTIONS_PER_PAGE).filter
              (fun t => strGeB (ymOf t) prev)) := rfl

theorem getLast_min {l : List Txn} (h : l ≠ [])
    (hp : l.Pairwise (fun a b => ymOf b ≤ ymOf a)) :
    ∀ t ∈ l, ymOf (l.getLast h) ≤ ymOf t := by
  induction l with
  | nil => exact absurd rfl h
  | cons a l ih =>
    intro t ht
    cases l with
    | nil =>
      rcases List.mem_singleton.mp ht with rfl
      exact le_rfl
    | cons b m =>
      have hbm : (b :: m) ≠ [] := by simp
      have hlast : (a :: b :: m).getLast h = (b :: m).getLast hbm :=
        List.getLast_cons hbm
      rw [hlast]
      rcases List.mem_cons.mp ht with rfl | ht2
      · exact (List.pairwise_cons.mp hp).1 _ (List.getLast_mem hbm)
      · exact ih hbm (List.pairwise_cons.mp hp).2 t ht2

theorem fetchInitialLoop_crossing (prev : String) :
    ∀ (fuel : Nat) (remaining accum : List Txn), remaining.length < fuel →
      remaining.Pairwise (fun a b => ymOf b ≤ ymOf a) →
      (∃ t ∈ remaining, ymOf t < prev) →
      fetchInitialLoop prev fuel remaining accum
        = ⟨accum ++ remaining.filter (fun t => strGeB (ymOf t) prev), true⟩ := by
  intro fuel
  induction fuel with
  | zero =>
    intro remaining accum hlen
    exact absurd hlen (Nat.not_lt_zero _)
  | succ n ih =>
    intro remaining accum hlen hp hex
    have hre : remaining ≠ [] := by
      rcases hex with ⟨t, ht, _⟩
      exact List.ne_nil_of_mem ht
    have hsnap : remaining.take TRANSACTIONS_PER_PAGE ≠ [] := by
      simp [List.take_eq_nil_iff, hre, TRANSACTIONS_PER_PAGE]
    have hra : remaining
        = remaining.take TRANSACTIONS_PER_PAGE ++ remaining.drop TRANSACTIONS_PER_PAGE :=
      (List.take_append_drop _ _).symm
    have hp2 := hp
    rw [hra] at hp2
    obtain ⟨hps, hpr, hcross⟩ := List.pairwise_append.mp hp2
    rw [fetchInitialLoop_succ]
    rw [dif_neg hsnap]
    split_ifs with h1 h2
    · -- crossing page: the kept records are exactly the records with month ≥ prev
      have hlt : ymOf ((remaining.take TRANSACTIONS_PER_PAGE).getLast hsnap) < prev :=
        (strLtB_iff _ _).mp h1
      rw [InitResult.mk.injEq]
      refine ⟨?_, rfl⟩
      conv_rhs => rw [hra]
      rw [List.filter_append]
      have hrest : (remaining.drop TRANSACTIONS_PER_PAGE).filter
          (fun t => strGeB (ymOf t) prev) = [] := by
        apply List.filter_eq_nil_iff.mpr
        intro b hb
        rw [strGeB_iff]
        exact not_le.mpr
          (lt_of_le_of_lt (hcross _ (List.getLast_mem hsnap) b hb) hlt)
      rw [hrest, List.append_nil]
    · -- a short page that does not cross cannot occur: the last record of the
      -- page is its oldest, and some record is older than prev
      exfalso
      have hple : prev ≤ ymOf ((remaining.take TRANSACTIONS_PER_PAGE).getLast hsnap) :=
        (strLtB_eq_false_iff _ _).mp (Bool.not_eq_true _ |>.mp h1)
      have hrest : remaining.drop TRANSACTIONS_PER_PAGE = [] := by
        have hlt : remaining.length < TRANSACTIONS_PER_PAGE := by
          by_contra hge
          push_neg at hge
          have : (remaining.take TRANSACTIONS_PER_PAGE).length
              = TRANSACTIONS_PER_PAGE := by
            simp [List.length_take, Nat.min_eq_left hge]
          omega
        simp [List.drop_eq_nil_iff, le_of_lt hlt]
      rcases hex with ⟨t, ht, htlt⟩
      have htin : t ∈ remaining.take TRANSACTIONS_PER_PAGE := by
        rw [hra] at ht
        rcases List.mem_append.mp ht with hin | hin
        · exact hin
        · rw [hrest] at hin
          cases hin
      exact absurd hple
        (not_le.mpr (lt_of_le_of_lt (getLast_min hsnap hps t htin) htlt))
    · -- full page that does not cross: recurse on the remaining records
      have hple : prev ≤ ymOf ((remaining.take TRANSACTIONS_PER_PAGE).getLast hsnap) :=
        (strLtB_eq_false_iff _ _).mp (Bool.not_eq_true _ |>.mp h1)
      have hfull : (remaining.take TRANSACTIONS_PER_PAGE).length
          = TRANSACTIONS_PER_PAGE := by
        have hle := List.length_take_le TRANSACTIONS_PER_PAGE remaining
        omega
      have hrlen : (remaining.drop TRANSACTIONS_PER_PAGE).length < n := by
        have hgen : TRANSACTIONS_PER_PAGE ≤ remaining.length := by
          by_contra hgt
          push_neg at hgt
          have : (remaining.take TRANSACTIONS_PER_PAGE).length = remaining.length := by
            simp [List.length_take, Nat.min_eq_right (le_of_lt hgt)]
          omega
        have hpos : 0 < TRANSACTIONS_PER_PAGE := by decide
        simp only [List.length_drop]
        have h25 : TRANSACTIONS_PER_PAGE = 25 := rfl
        omega
      have hex2 : ∃ t ∈ remaining.drop TRANSACTIONS_PER_PAGE, ymOf t < prev := by
        rcases hex with ⟨t, ht, htlt⟩
        rw [hra] at ht
        rcases List.mem_append.mp ht with hin | hin
        · exact absurd hple
            (not_le.mpr (lt_of_le_of_lt (getLast_min hsnap hps t hin) htlt))
        · exact ⟨t, hin, htlt⟩
      rw [ih _ _ hrlen hpr hex2]
      rw [InitResult.mk.injEq]
      refine ⟨?_, rfl⟩
      conv_rhs => rw [hra]
      rw [List.filter_append, List.append_assoc]

theorem fetchInitialLoop_exhaust (prev : String) :
    ∀ (fuel : Nat) (remaining accum : List Txn), remaining.length < fuel →
      (∀ t ∈ remaining, prev ≤ ymOf t) →
      fetchInitialLoop prev fuel remaining accum = ⟨accum ++ remaining, false⟩ := by
  intro fuel
  induction fuel with
  | zero =>
    intro remaining accum hlen
    exact absurd hlen (Nat.not_lt_zero _)
  | succ n ih =>
    intro remaining accum hlen hall
    rw [fetchInitialLoop_succ]
    by_cases h0 : remaining.take TRANSACTIONS_PER_PAGE = []
    · have hre : remaining = [] := by
        rcases List.take_eq_nil_iff.mp h0 with h | h
        · exact absurd h (by decide)
        · exact h
      rw [dif_pos h0, hre]
      simp
    · rw [dif_neg h0]
      have hra : remaining
          = remaining.take TRANSACTIONS_PER_PAGE ++ remaining.drop TRANSACTIONS_PER_PAGE :=
        (List.take_append_drop _ _).symm
      have hkept : (remaining.take TRANSACTIONS_PER_PAGE).filter
          (fun t => strGeB (ymOf t) prev) = remaining.take TRANSACTIONS_PER_PAGE := by
        apply List.filter_eq_self.mpr
        intro a ha
        rw [strGeB_iff]
        exact hall a (List.mem_of_mem_take ha)
      split_ifs with h1 h2
      · exfalso
        have hlt : ymOf ((remaining.take TRANSACTIONS_PER_PAGE).getLast h0) < prev :=
          (strLtB_iff _ _).mp h1
        have hmem : (remaining.take TRANSACTIONS_PER_PAGE).getLast h0 ∈ remaining :=
          List.mem_of_mem_take (List.getLast_mem h0)
        exact absurd (hall _ hmem) (not_le.mpr hlt)
      · -- short page: the collection is exhausted here
        have hrest : remaining.drop TRANSACTIONS_PER_PAGE = [] := by
          have hlt : remaining.length < TRANSACTIONS_PER_PAGE := by
            by_contra hge
            push_neg at hge
            have : (remaining.take TRANSACTIONS_PER_PAGE).length
                = TRANSACTIONS_PER_PAGE := by
              simp [List.length_take, Nat.min_eq_left hge]
            omega
          simp [List.drop_eq_nil_iff, le_of_lt hlt]
        rw [hkept, InitResult.mk.injEq]
        refine ⟨?_, rfl⟩
        conv_rhs => rw [hra, hrest, List.append_nil]
      · -- full page: recurse
        have hrlen : (remaining.drop TRANSACTIONS_PER_PAGE).length < n := by
          have hgen : TRANSACTIONS_PER_PAGE ≤ remaining.length := by
            by_contra hgt
            push_neg at hgt
            have : (remaining.take TRANSACTIONS_PER_PAGE).length = remaining.length := by
              simp [List.length_take, Nat.min_eq_right (le_of_lt hgt)]
            omega
          have h25 : TRANSACTIONS_PER_PAGE = 25 := rfl
          simp only [List.length_drop]
          omega
        have hall2 : ∀ t ∈ remaining.drop TRANSACTIONS_PER_PAGE, prev ≤ ymOf t := by
          intro t ht
          exact hall t (List.mem_of_mem_drop ht)
        rw [hkept, ih _ _ hrlen hall2, InitResult.mk.injEq]
        refine ⟨?_, rfl⟩
        conv_rhs => rw [hra]
        rw [List.append_assoc]

/-- C2.  Against a remote collection ordered newest-first, `fetchInitial`
pages in batches of 25: if some record is older than the previous calendar
month (`prev`), it stores exactly the records with month `≥ prev`, discarding
the older records of the crossing page, and stops with `hasMore = true`; if
no record is older than `prev`, it loads the whole collection and stops on a
short (or empty) page with `hasMore = false`. -/
theorem c2_fetch_initial (prev : String) (remote : List Txn)
    (hs : remote.Pairwise (fun a b => strGeB (ymOf a) (ymOf b) = true)) :
    ((∃ t ∈ remote, strLtB (ymOf t) prev = true) →
        fetchInitialTransactions prev remote
          = ⟨remote.filter (fun t => strGeB (ymOf t) prev), true⟩) ∧
    ((∀ t ∈ remote, strGeB (ymOf t) prev = true) →
        fetchInitialTransactions prev remote = ⟨remote, false⟩) := by
  have hs2 : remote.Pairwise (fun a b => ymOf b ≤ ymOf a) :=
    hs.imp (fun h => (strGeB_iff _ _).mp h)
  constructor
  · intro hex
    obtain ⟨t, ht, hlt⟩ := hex
    have h := fetchInitialLoop_crossing prev (remote.length + 1) remote []
      (Nat.lt_succ_self _) hs2 ⟨t, ht, (strLtB_iff _ _).mp hlt⟩
    simpa [fetchInitialTransactions] using h
  · intro hall
    have h := fetchInitialLoop_exhaust prev (remote.length + 1) remote []
      (Nat.lt_succ_self _) (fun t ht => (strGeB_iff _ _).mp (hall t ht))
    simpa [fetchInitialTransactions] using h

/-- Witness for C2: with months 2024-06, 2024-05, 2024-04 in the remote
collection and today in 2024-06 (so the boundary month is 2024-05), the
loaded set is exactly the June and May records and `hasMore` is true. -/
theorem c2_witness :
    prevYearMonth "2024-06" = "2024-05" ∧
    fetchInitialTransactions (prevYearMonth "2024-06") demoRemote
      = ⟨[txnJune, txnMay], true⟩ := by
  constructor
  · decide
  · have h := (c2_fetch_initial (prevYearMonth "2024-06") demoRemote
      (by decide)).1 ⟨txnApril, by decide, by decide⟩
    rw [h]
    decide

/-! ### C4: loading one more month -/

theorem fetchMoreLoop_succ (targetMonth : String) (fuel : Nat)
    (remaining append : List Txn) :
    fetchMoreLoop targetMonth (fuel + 1) remaining append
      = if h : remaining.take TRANSACTIONS_PER_PAGE = [] then ⟨append, false⟩
        else
          if strLtB (ymOf ((remaining.take TRANSACTIONS_PER_PAGE).getLast h))
                targetMonth = true
              ∨ (remaining.take TRANSACTIONS_PER_PAGE).length
                < TRANSACTIONS_PER_PAGE then
            ⟨append ++ (remaining.take TRANSACTIONS_PER_PAGE).filter
              (fun t => ymOf t = targetMonth),
             strLeB (ymOf ((remaining.take TRANSACTIONS_PER_PAGE).getLast h))
                 targetMonth
               && decide ((remaining.take TRANSACTIONS_PER_PAGE).length
                 = TRANSACTIONS_PER_PAGE)⟩
          else fetchMoreLoop targetMonth fuel (remaining.drop TRANSACTIONS_PER_PAGE)
            (append ++ (remaining.take TRANSACTIONS_PER_PAGE).filter
              (fun t => ymOf t = targetMonth)) := rfl

theorem fetchMoreLoop_keeps_target (targetMonth : String) :
    ∀ (fuel : Nat) (remaining append : List Txn), remaining.length < fuel →
      remaining.Pairwise (fun a b => ymOf b ≤ ymOf a) →
      (fetchMoreLoop targetMonth fuel remaining append).accum
        = append ++ remaining.filter (fun t => ymOf t = targetMonth) := by
  intro fuel
  induction fuel with
  | zero =>
    intro remaining append hlen
    exact absurd hlen (Nat.not_lt_zero _)
  | succ n ih =>
    intro remaining append hlen hp
    rw [fetchMoreLoop_succ]
    by_cases h0 : remaining.take TRANSACTIONS_PER_PAGE = []
    · have hre : remaining = [] := by
        rcases List.take_eq_nil_iff.mp h0 with h | h
        · exact absurd h (by decide)
        · exact h
      rw [dif_pos h0, hre]
      simp
    · rw [dif_neg h0]
      have hra : remaining
          = remaining.take TRANSACTIONS_PER_PAGE ++ remaining.drop TRANSACTIONS_PER_PAGE :=
        (List.take_append_drop _ _).symm
      have hp2 := hp
      rw [hra] at hp2
      obtain ⟨hps, hpr, hcross⟩ := List.pairwise_append.mp hp2
      split_ifs with h1
      · show append ++ (remaining.take TRANSACTIONS_PER_PAGE).filter
            (fun t => ymOf t = targetMonth)
          = append ++ remaining.filter (fun t => ymOf t = targetMonth)
        conv_rhs => rw [hra]
        rw [List.filter_append]
        have hrest : (remaining.drop TRANSACTIONS_PER_PAGE).filter
            (fun t => ymOf t = targetMonth) = [] := by
          apply List.filter_eq_nil_iff.mpr
          intro b hb
          simp only [decide_eq_true_eq]
          rcases h1 with h1a | h1b
          · have hlt : ymOf ((remaining.take TRANSACTIONS_PER_PAGE).getLast h0)
                < targetMonth := (strLtB_iff _ _).mp h1a
            exact ne_of_lt
              (lt_of_le_of_lt (hcross _ (List.getLast_mem h0) b hb) hlt)
          · exfalso
            have hrest2 : remaining.drop TRANSACTIONS_PER_PAGE = [] := by
              have hlt : remaining.length < TRANSACTIONS_PER_PAGE := by
                by_contra hge
                push_neg at hge
                have : (remaining.take TRANSACTIONS_PER_PAGE).length
                    = TRANSACTIONS_PER_PAGE := by
                  simp [List.length_take, Nat.min_eq_left hge]
                omega
              simp [List.drop_eq_nil_iff, le_of_lt hlt]
            rw [hrest2] at hb
            cases hb
        rw [hrest, List.append_nil]
      · push_neg at h1
        obtain ⟨h1a, h1b⟩ := h1
        have hrlen : (remaining.drop TRANSACTIONS_PER_PAGE).length < n := by
          have hgen : TRANSACTIONS_PER_PAGE ≤ remaining.length := by
            by_contra hgt
            push_neg at hgt
            have : (remaining.take TRANSACTIONS_PER_PAGE).length = remaining.length := by
              simp [List.length_take, Nat.min_eq_right (le_of_lt hgt)]
            omega
          have h25 : TRANSACTIONS_PER_PAGE = 25 := rfl
          simp only [List.length_drop]
          omega
        rw [ih _ _ hrlen hpr]
        conv_rhs => rw [hra]
        rw [List.filter_append, List.append_assoc]

theorem oldestFold_some : ∀ (l : List Txn) (m : String),
    ∃ mf, l.foldl oldestFold (some m) = some mf ∧ mf ≤ m ∧
      (∀ t ∈ l, mf ≤ ymOf t) ∧ (mf = m ∨ ∃ t ∈ l, ymOf t = mf) := by
  intro l
  induction l with
  | nil =>
    intro m
    exact ⟨m, rfl, le_rfl, by simp, Or.inl rfl⟩
  | cons t l ih =>
    intro m
    rw [List.foldl_cons]
    by_cases hc : strLtB (ymOf t) m = true
    · have hlt : ymOf t < m := (strLtB_iff _ _).mp hc
      obtain ⟨mf, heq, hle, hall, hor⟩ := ih (ymOf t)
      refine ⟨mf, ?_, le_trans hle (le_of_lt hlt), ?_, ?_⟩
      · rw [show oldestFold (some m) t = some (ymOf t) by simp [oldestFold, hc]]
        exact heq
      · intro u hu
        rcases List.mem_cons.mp hu with rfl | hu2
        · exact hle
        · exact hall u hu2
      · cases hor with
        | inl hmm => exact Or.inr ⟨t, List.mem_cons_self t l, hmm ▸ rfl⟩
        | inr hex =>
          obtain ⟨u, hu, he⟩ := hex
          exact Or.inr ⟨u, List.mem_cons_of_mem t hu, he⟩
    · have hge : m ≤ ymOf t :=
        (strLtB_eq_false_iff _ _).mp (Bool.not_eq_true _ |>.mp hc)
      obtain ⟨mf, heq, hle, hall, hor⟩ := ih m
      refine ⟨mf, ?_, hle, ?_, ?_⟩
      · rw [show oldestFold (some m) t = some m by simp [oldestFold, hc]]
        exact heq
      · intro u hu
        rcases List.mem_cons.mp hu with rfl | hu2
        · exact le_trans hle hge
        · exact hall u hu2
      · cases hor with
        | inl hmm => exact Or.inl hmm
        | inr hex =>
          obtain ⟨u, hu, he⟩ := hex
          exact Or.inr ⟨u, List.mem_cons_of_mem t hu, he⟩

theorem oldestLoadedMonth_spec (store : List Txn) (om : String)
    (hmin : oldestLoadedMonth store = some om) :
    (∃ t ∈ store, ymOf t = om) ∧ ∀ t ∈ store, om ≤ ymOf t := by
  cases store with
  | nil => cases hmin
  | cons t l =>
    have hstep : oldestLoadedMonth (t :: l) = l.foldl oldestFold (some (ymOf t)) := by
      unfold oldestLoadedMonth
      rw [List.foldl_cons]
      rfl
    rw [hstep] at hmin
    obtain ⟨mf, heq, hle, hall, hor⟩ := oldestFold_some l (ymOf t)
    rw [heq] at hmin
    have hmf : mf = om := Option.some.inj hmin
    subst hmf
    constructor
    · cases hor with
      | inl hmm => exact ⟨t, List.mem_cons_self t l, hmm ▸ rfl⟩
      | inr hex =>
        obtain ⟨u, hu, he⟩ := hex
        exact ⟨u, List.mem_cons_of_mem t hu, he⟩
    · intro u hu
      rcases List.mem_cons.mp hu with rfl | hu2
      · exact hle
      · exact hall u hu2

/-- C4.  `fetchMoreTransactions` first computes the oldest loaded month `om`
(a month that occurs in the store and bounds every loaded record from
below), takes `prevYearMonth om` as the target, and then pages through the
remote records after the cursor, appending to the store exactly the fetched
records whose month equals the target (it stops paging at the first record
older than the target or at a short page, so no target record is missed and
no other record is appended). -/
theorem c4_fetch_more (store remote : List Txn) (om : String)
    (hmin : oldestLoadedMonth store = some om)
    (hs : remote.Pairwise (fun a b => strGeB (ymOf a) (ymOf b) = true)) :
    ((∃ t ∈ store, ymOf t = om) ∧ ∀ t ∈ store, om ≤ ymOf t) ∧
    (fetchMoreTransactions store remote).1
      = store ++ remote.filter (fun t => ymOf t = prevYearMonth om) := by
  refine ⟨oldestLoadedMonth_spec store om hmin, ?_⟩
  have hs2 : remote.Pairwise (fun a b => ymOf b ≤ ymOf a) :=
    hs.imp (fun h => (strGeB_iff _ _).mp h)
  have hloop := fetchMoreLoop_keeps_target (prevYearMonth om)
    (remote.length + 1) remote [] (Nat.lt_succ_self _) hs2
  unfold fetchMoreTransactions
  rw [hmin]
  simp only [List.nil_append] at hloop
  simp [hloop]

/-- Witness for C4: with a store holding 2024-06 and 2024-05 records, the
target month is 2024-04 and exactly the two April records of the remote
tail are appended (the March record is not). -/
theorem c4_witness :
    oldestLoadedMonth [txnJune, txnMay] = some "2024-05" ∧
    (fetchMoreTransactions [txnJune, txnMay] [txnApril, txnApril2, txnMarch]).1
      = [txnJune, txnMay, txnApril, txnApril2] := by
  constructor
  · decide
  · have h := (c4_fetch_more [txnJune, txnMay] [txnApril, txnApril2, txnMarch]
      "2024-05" (by decide) (by decide)).2
    rw [h]
    decide

/-! ### C8: category usage ranking -/

theorem orderedInsert_pairwise_stable {α : Type} {r s : α → α → Prop}
    [DecidableRel r] (htot : ∀ a b, r a b ∨ r b a)
    (htrans : ∀ a b c, r a b → r b c → r a c) :
    ∀ (l : List α) (x : α), (∀ y ∈ l, s x y) →
      l.Pairwise (fun a b => r a b ∧ (r b a → s a b)) →
      (l.orderedInsert r x).Pairwise (fun a b => r a b ∧ (r b a → s a b)) := by
  intro l
  induction l with
  | nil =>
    intro x _ _
    simp
  | cons y ys ih =>
    intro x hx hP
    obtain ⟨hy, hPtail⟩ := List.pairwise_cons.mp hP
    by_cases hr : r x y
    · simp only [List.orderedInsert, if_pos hr]
      refine List.pairwise_cons.mpr ⟨?_, hP⟩
      intro z hz
      rcases List.mem_cons.mp hz with rfl | hz2
      · exact ⟨hr, fun _ => hx z (List.mem_cons_self _ _)⟩
      · exact ⟨htrans x y z hr (hy z hz2).1,
          fun _ => hx z (List.mem_cons_of_mem _ hz2)⟩
    · simp only [List.orderedInsert, if_neg hr]
      refine List.pairwise_cons.mpr ⟨?_, ?_⟩
      · intro z hz
        rcases (List.mem_orderedInsert r).mp hz with rfl | hz2
        · exact ⟨(htot z y).resolve_left hr, fun hzy => absurd hzy hr⟩
        · exact hy z hz2
      · exact ih x (fun u hu => hx u (List.mem_cons_of_mem _ hu)) hPtail

/-- Stability of the stable sort: sorting a list that is `Pairwise s` by a
total preorder `r` yields a list sorted by `r` in which tied elements
(`r` holding both ways) keep their original `s` relation. -/
theorem insertionSort_pairwise_stable {α : Type} {r s : α → α → Prop}
    [DecidableRel r] (htot : ∀ a b, r a b ∨ r b a)
    (htrans : ∀ a b c, r a b → r b c → r a c) :
    ∀ (l : List α), l.Pairwise s →
      (List.insertionSort r l).Pairwise (fun a b => r a b ∧ (r b a → s a b)) := by
  intro l
  induction l with
  | nil =>
    intro _
    simp
  | cons a l ih =>
    intro hl
    obtain ⟨ha, hl2⟩ := List.pairwise_cons.mp hl
    simp only [List.insertionSort]
    exact orderedInsert_pairwise_stable htot htrans _ a
      (fun y hy => ha y (by rwa [List.mem_insertionSort] at hy)) (ih hl2)

theorem baseCategories_nodup (type : String) : (baseCategories type).Nodup := by
  unfold baseCategories
  by_cases h : type = "Expense"
  · rw [if_pos h]
    decide
  · rw [if_neg h]
    decide

theorem baseCategories_pairwise_sublist (type : String) :
    (baseCategories type).Pairwise
      (fun a b => List.Sublist [a, b] (baseCategories type)) := by
  unfold baseCategories
  by_cases h : type = "Expense"
  · rw [if_pos h]
    decide
  · rw [if_neg h]
    decide

/-- C8.  For every usage-count state and type, `sortedCategories` is a
permutation of the type's fixed category list in which: every category among
the first 5 has a usage count at least that of every later category; the
first 5 are ordered by count descending with ties kept in the fixed list's
original order; and the remaining categories are in alphabetical order.  In
the three-Groceries/one-Transport scenario, "Groceries" ranks above
"Transport" in the Expense ordering. -/
theorem c8_category_ranking :
    (∀ (type : String) (counts : String → Nat),
      (sortedCategories type counts).Perm (baseCategories type) ∧
      (∀ x ∈ (sortedCategories type counts).take 5,
        ∀ y ∈ (sortedCategories type counts).drop 5, counts y ≤ counts x) ∧
      ((sortedCategories type counts).take 5).Pairwise
        (fun a b => counts b ≤ counts a ∧
          (counts a ≤ counts b → List.Sublist [a, b] (baseCategories type))) ∧
      ((sortedCategories type counts).drop 5).Pairwise
        (fun a b => strLeB a b = true)) ∧
    (sortedCategories "Expense" usageScenarioCounts).indexOf "Groceries"
      < (sortedCategories "Expense" usageScenarioCounts).indexOf "Transport" := by
  constructor
  · intro type counts
    have htot : ∀ a b : String, counts b ≤ counts a ∨ counts a ≤ counts b :=
      fun a b => le_total (counts b) (counts a)
    have htrans : ∀ a b c : String,
        counts b ≤ counts a → counts c ≤ counts b → counts c ≤ counts a :=
      fun a b c h1 h2 => le_trans h2 h1
    haveI : IsTotal String (fun a b => counts b ≤ counts a) := ⟨htot⟩
    haveI : IsTrans String (fun a b => counts b ≤ counts a) := ⟨htrans⟩
    set base := baseCategories type with hbase
    set ranked := List.insertionSort (fun a b => counts b ≤ counts a) base
      with hranked
    set top5 := ranked.take 5 with htop5
    set rest := List.insertionSort (fun a b : String => strLeB a b = true)
      (base.filter (fun c => !(top5.contains c))) with hrest
    have hres : sortedCategories type counts = top5 ++ rest := rfl
    have hperm : ranked.Perm base := List.perm_insertionSort _ base
    have hsorted : ranked.Pairwise (fun a b => counts b ≤ counts a) :=
      List.sorted_insertionSort _ base
    have hnodup : ranked.Nodup := (hperm.nodup_iff).mpr (baseCategories_nodup type)
    have htd : ranked = top5 ++ ranked.drop 5 := (List.take_append_drop 5 ranked).symm
    have hlen5 : top5.length ≤ 5 := by
      rw [htop5]
      exact List.length_take_le 5 ranked
    have hshort : top5.length < 5 → rest = [] := by
      intro hlt
      have hrl : ranked.length < 5 := by
        rw [htop5, List.length_take] at hlt
        omega
      have hall : ranked.take 5 = ranked := List.take_of_length_le (le_of_lt hrl)
      have hfe : base.filter (fun c => !(top5.contains c)) = [] := by
        apply List.filter_eq_nil_iff.mpr
        intro c hc
        have hcr : c ∈ top5 := by
          rw [htop5, hall]
          exact hperm.mem_iff.mpr hc
        simp [hcr]
      rw [hrest, hfe]
      rfl
    have htake : (sortedCategories type counts).take 5 = top5 := by
      rw [hres, List.take_append_eq_append_take,
        List.take_of_length_le hlen5]
      rcases Nat.lt_or_ge top5.length 5 with hlt | hge
      · rw [hshort hlt]
        simp
      · have : 5 - top5.length = 0 := by omega
        rw [this]
        simp
    have hdrop : (sortedCategories type counts).drop 5 = rest := by
      rw [hres, List.drop_append_eq_append_drop,
        List.drop_eq_nil_of_le hlen5, List.nil_append]
      rcases Nat.lt_or_ge top5.length 5 with hlt | hge
      · rw [hshort hlt]
        simp
      · have : 5 - top5.length = 0 := by omega
        rw [this, List.drop_zero]
    have hrestbase : ∀ y ∈ rest, y ∈ base ∧ y ∉ top5 := by
      intro y hy
      rw [hrest] at hy
      have hy2 := (List.mem_insertionSort _).mp hy
      have hy3 := List.mem_filter.mp hy2
      refine ⟨hy3.1, ?_⟩
      intro hc
      have h5 := hy3.2
      simp at h5
      exact h5 hc
    have hrestdrop : ∀ y ∈ rest, y ∈ ranked.drop 5 := by
      intro y hy
      obtain ⟨hyb, hynt⟩ := hrestbase y hy
      have : y ∈ ranked := hperm.mem_iff.mpr hyb
      rw [htd] at this
      rcases List.mem_append.mp this with h | h
      · exact absurd h hynt
      · exact h
    refine ⟨?_, ?_, ?_, ?_⟩
    · -- permutation of the fixed list
      rw [hres]
      have hfperm : (base.filter (fun c => !(top5.contains c))).Perm
          (ranked.drop 5) := by
        have h1 : (base.filter (fun c => !(top5.contains c))).Perm
            (ranked.filter (fun c => !(top5.contains c))) :=
          (hperm.filter _).symm
        have h2 : ranked.filter (fun c => !(top5.contains c))
            = ranked.drop 5 := by
          conv_lhs => rw [htd]
          rw [List.filter_append]
          have h3 : top5.filter (fun c => !(top5.contains c)) = [] := by
            apply List.filter_eq_nil_iff.mpr
            intro c hc
            simp [hc]
          have h4 : (ranked.drop 5).filter (fun c => !(top5.contains c))
              = ranked.drop 5 := by
            apply List.filter_eq_self.mpr
            intro c hc
            have hdisj := (List.nodup_append.mp (htd ▸ hnodup)).2.2
            have : c ∉ top5 := fun hmem => hdisj hmem hc
            simp [List.elem_iff, this]
          rw [h3, h4, List.nil_append]
        exact h1.trans (h2 ▸ List.Perm.refl _)
      have hrperm : rest.Perm (ranked.drop 5) :=
        (List.perm_insertionSort _ _).trans hfperm
      exact (hrperm.append_left top5).trans (htd ▸ hperm)
    · -- the first five dominate the rest by count
      intro x hx y hy
      rw [htake] at hx
      rw [hdrop] at hy
      have hyd : y ∈ ranked.drop 5 := hrestdrop y hy
      have := List.pairwise_append.mp (htd ▸ hsorted)
      exact this.2.2 x hx y hyd
    · -- the first five are count-sorted with ties in original order
      rw [htake, htop5]
      have hstable := insertionSort_pairwise_stable
        (r := fun a b => counts b ≤ counts a)
        (s := fun a b => List.Sublist [a, b] base) htot htrans base
        (baseCategories_pairwise_sublist type)
      exact List.Pairwise.sublist (List.take_sublist 5 _) hstable
    · -- the rest is alphabetical
      rw [hdrop, hrest]
      haveI : IsTotal String (fun a b : String => strLeB a b = true) := by
        constructor
        intro a b
        rcases le_total a b with h | h
        · exact Or.inl ((strLeB_iff a b).mpr h)
        · exact Or.inr ((strLeB_iff b a).mpr h)
      haveI : IsTrans String (fun a b : String => strLeB a b = true) := by
        constructor
        intro a b c h1 h2
        exact (strLeB_iff a c).mpr
          (le_trans ((strLeB_iff a b).mp h1) ((strLeB_iff b c).mp h2))
      exact List.sorted_insertionSort _ _
  · decide

/-- Witness for C8: in the scenario counts, "Groceries" is among the first
five of the Expense ordering, "Travel" is in the alphabetical remainder, and
the count-domination conclusion of the theorem applies to them. -/
theorem c8_witness :
    "Groceries" ∈ (sortedCategories "Expense" usageScenarioCounts).take 5 ∧
    "Travel" ∈ (sortedCategories "Expense" usageScenarioCounts).drop 5 ∧
    usageScenarioCounts "Travel" ≤ usageScenarioCounts "Groceries" :=
  ⟨by decide, by decide,
   (c8_category_ranking.1 "Expense" usageScenarioCounts).2.1 "Groceries"
     (by decide) "Travel" (by decide)⟩

/-! ### C7: amount sort ascending vs descending -/

theorem jsSortLe_amount_asc_iff (rates : Option Rates) (dc : String) (a b : Txn) :
    jsSortLe rates dc .amount .asc a b = true
      ↔ convertForDisplay rates dc a ≤ convertForDisplay rates dc b := by
  simp [jsSortLe, keyLt, not_lt]

theorem jsSortLe_amount_desc_iff (rates : Option Rates) (dc : String) (a b : Txn) :
    jsSortLe rates dc .amount .desc a b = true
      ↔ convertForDisplay rates dc b ≤ convertForDisplay rates dc a := by
  simp [jsSortLe, keyLt, not_lt]

/-- C7 counterexample.  With two distinct transactions whose converted
amounts are equal, the stable sort keeps their input order under both
directions, so the descending order is not the reverse of the ascending
order. -/
theorem c7_counterexample :
    filteredTransactions [] [] "" .amount .desc (some [("USD", 1)]) "USD"
        [txnTieA, txnTieB]
      ≠ (filteredTransactions [] [] "" .amount .asc (some [("USD", 1)]) "USD"
        [txnTieA, txnTieB]).reverse := by
  decide

/-- C7 (amended).  When the display-converted amounts of the filtered set
are pairwise distinct, sorting by amount descending is exactly the reverse
of sorting by amount ascending; with ties the stable sort preserves input
order in both directions, so the two orders need not be reverses. -/
theorem c7_amount_sort_reverse (ms cs : List String) (ds : String)
    (rates : Option Rates) (dc : String) (l : List Txn)
    (hdist : (filterStage ms cs ds l).Pairwise
      (fun a b => convertForDisplay rates dc a ≠ convertForDisplay rates dc b)) :
    filteredTransactions ms cs ds .amount .desc rates dc l
      = (filteredTransactions ms cs ds .amount .asc rates dc l).reverse := by
  haveI htotA : IsTotal Txn (fun a b => jsSortLe rates dc .amount .asc a b = true) := by
    constructor
    intro a b
    rcases le_total (convertForDisplay rates dc a) (convertForDisplay rates dc b)
      with h | h
    · exact Or.inl ((jsSortLe_amount_asc_iff rates dc a b).mpr h)
    · exact Or.inr ((jsSortLe_amount_asc_iff rates dc b a).mpr h)
  haveI htrA : IsTrans Txn (fun a b => jsSortLe rates dc .amount .asc a b = true) := by
    constructor
    intro a b c h1 h2
    exact (jsSortLe_amount_asc_iff rates dc a c).mpr
      (le_trans ((jsSortLe_amount_asc_iff rates dc a b).mp h1)
        ((jsSortLe_amount_asc_iff rates dc b c).mp h2))
  haveI htotD : IsTotal Txn (fun a b => jsSortLe rates dc .amount .desc a b = true) := by
    constructor
    intro a b
    rcases le_total (convertForDisplay rates dc a) (convertForDisplay rates dc b)
      with h | h
    · exact Or.inr ((jsSortLe_amount_desc_iff rates dc b a).mpr h)
    · exact Or.inl ((jsSortLe_amount_desc_iff rates dc a b).mpr h)
  haveI htrD : IsTrans Txn (fun a b => jsSortLe rates dc .amount .desc a b = true) := by
    constructor
    intro a b c h1 h2
    exact (jsSortLe_amount_desc_iff rates dc a c).mpr
      (le_trans ((jsSortLe_amount_desc_iff rates dc b c).mp h2)
        ((jsSortLe_amount_desc_iff rates dc a b).mp h1))
  set F := filterStage ms cs ds l with hF
  set A := filteredTransactions ms cs ds .amount .asc rates dc l with hA
  set D := filteredTransactions ms cs ds .amount .desc rates dc l with hD
  have hApw : A.Pairwise (fun a b =>
      convertForDisplay rates dc a < convertForDisplay rates dc b) := by
    have hs : A.Pairwise (fun a b => jsSortLe rates dc .amount .asc a b = true) :=
      List.sorted_insertionSort _ F
    have hperm : A.Perm F := List.perm_insertionSort _ F
    have hne : A.Pairwise (fun a b =>
        convertForDisplay rates dc a ≠ convertForDisplay rates dc b) :=
      (hperm.pairwise_iff (fun h => Ne.symm h)).mpr hdist
    exact (hs.and hne).imp (fun h =>
      lt_of_le_of_ne ((jsSortLe_amount_asc_iff rates dc _ _).mp h.1) h.2)
  have hDpw : D.Pairwise (fun a b =>
      convertForDisplay rates dc b < convertForDisplay rates dc a) := by
    have hs : D.Pairwise (fun a b => jsSortLe rates dc .amount .desc a b = true) :=
      List.sorted_insertionSort _ F
    have hperm : D.Perm F := List.perm_insertionSort _ F
    have hne : D.Pairwise (fun a b =>
        convertForDisplay rates dc a ≠ convertForDisplay rates dc b) :=
      (hperm.pairwise_iff (fun h => Ne.symm h)).mpr hdist
    exact (hs.and hne).imp (fun h =>
      lt_of_le_of_ne ((jsSortLe_amount_desc_iff rates dc _ _).mp h.1) h.2.symm)
  have hArev : A.reverse.Pairwise (fun a b =>
      convertForDisplay rates dc b < convertForDisplay rates dc a) :=
    List.pairwise_reverse.mpr hApw
  have hpermDA : D.Perm A.reverse :=
    ((List.perm_insertionSort _ F).trans
      (List.perm_insertionSort _ F).symm).trans A.reverse_perm.symm
  haveI : IsAntisymm Txn (fun a b =>
      convertForDisplay rates dc b < convertForDisplay rates dc a) :=
    ⟨fun a b h1 h2 => absurd h2 (lt_asymm h1)⟩
  exact List.eq_of_perm_of_sorted hpermDA hDpw hArev

/-- Witness for C7 (amended): two transactions with distinct amounts sort to
exactly reversed orders. -/
theorem c7_witness :
    filteredTransactions [] [] "" .amount .desc (some [("USD", 1)]) "USD"
        [txnMay, txnJune]
      = (filteredTransactions [] [] "" .amount .asc (some [("USD", 1)]) "USD"
        [txnMay, txnJune]).reverse :=
  c7_amount_sort_reverse [] [] "" (some [("USD", 1)]) "USD" [txnMay, txnJune]
    (by decide)

/-! ### C1: which conversion rule each aggregate uses -/

theorem assocGet_upsert_self {V : Type} (init : V) (f : V → V) (k : String) :
    ∀ l : List (String × V),
      assocGet (upsert init f k l) k = some (f ((assocGet l k).getD init)) := by
  intro l
  induction l with
  | nil => simp [upsert, assocGet]
  | cons p rest ih =>
    obtain ⟨q, v⟩ := p
    by_cases hq : q = k
    · subst hq
      simp [upsert, assocGet]
    · simp [upsert, assocGet, hq, ih]

theorem assocGet_upsert_other {V : Type} (init : V) (f : V → V) (k q : String)
    (hne : q ≠ k) :
    ∀ l : List (String × V), assocGet (upsert init f k l) q = assocGet l q := by
  intro l
  induction l with
  | nil =>
    have h : ¬ (k = q) := fun h => hne h.symm
    simp [upsert, assocGet, h]
  | cons p rest ih =>
    obtain ⟨r, v⟩ := p
    by_cases hr : r = k
    · subst hr
      have h : ¬ (r = q) := fun h => hne h.symm
      simp [upsert, assocGet, h]
    · by_cases hrq : r = q
      · simp [upsert, assocGet, hr, hrq, hne]
      · simp [upsert, assocGet, hr, hrq, ih]

theorem assocGet_foldl_upsert {V : Type} (init : V) (g : Txn → V → V)
    (key : Txn → String) (k : String) :
    ∀ (ts : List Txn) (acc : List (String × V)),
      (assocGet (ts.foldl (fun a t => upsert init (g t) (key t) a) acc) k).getD init
        = (ts.filter (fun t => key t = k)).foldl (fun v t => g t v)
            ((assocGet acc k).getD init) := by
  intro ts
  induction ts with
  | nil =>
    intro acc
    rfl
  | cons t ts ih =>
    intro acc
    rw [List.foldl_cons, List.filter_cons, ih]
    by_cases hk : key t = k
    · rw [if_pos (by simp [hk] : decide (key t = k) = true), List.foldl_cons,
        show upsert init (g t) (key t) acc = upsert init (g t) k acc by rw [hk],
        assocGet_upsert_self]
      simp
    · rw [if_neg (by simp [hk] : ¬ decide (key t = k) = true),
        assocGet_upsert_other init (g t) (key t) k (fun h => hk h.symm)]

theorem upsert_keys_mem {V : Type} (init : V) (f : V → V) (k x : String) :
    ∀ l : List (String × V),
      x ∈ (upsert init f k l).map Prod.fst → x ∈ l.map Prod.fst ∨ x = k := by
  intro l
  induction l with
  | nil =>
    intro h
    simp [upsert] at h
    exact Or.inr h
  | cons p rest ih =>
    obtain ⟨q, v⟩ := p
    intro h
    by_cases hq : q = k
    · subst hq
      simp only [upsert, if_pos rfl] at h
      exact Or.inl h
    · simp only [upsert, if_neg hq, List.map_cons, List.mem_cons] at h
      rcases h with rfl | h2
      · exact Or.inl (by simp)
      · rcases ih h2 with h3 | h3
        · exact Or.inl (by simp [h3])
        · exact Or.inr h3

theorem upsert_keys_nodup {V : Type} (init : V) (f : V → V) (k : String) :
    ∀ l : List (String × V),
      (l.map Prod.fst).Nodup → ((upsert init f k l).map Prod.fst).Nodup := by
  intro l
  induction l with
  | nil =>
    intro _
    simp [upsert]
  | cons p rest ih =>
    obtain ⟨q, v⟩ := p
    intro hnd
    rw [List.map_cons, List.nodup_cons] at hnd
    by_cases hq : q = k
    · subst hq
      have hu : upsert init f q ((q, v) :: rest) = (q, f v) :: rest := by
        simp [upsert]
      rw [hu, List.map_cons, List.nodup_cons]
      exact hnd
    · simp only [upsert, if_neg hq, List.map_cons, List.nodup_cons]
      refine ⟨?_, ih hnd.2⟩
      intro hmem
      rcases upsert_keys_mem init f k q rest hmem with h | h
      · exact hnd.1 h
      · exact hq h

theorem foldl_upsert_keys_nodup {V : Type} (init : V) (g : Txn → V → V)
    (key : Txn → String) :
    ∀ (ts : List Txn) (acc : List (String × V)),
      (acc.map Prod.fst).Nodup →
      ((ts.foldl (fun a t => upsert init (g t) (key t) a) acc).map Prod.fst).Nodup := by
  intro ts
  induction ts with
  | nil =>
    intro acc h
    exact h
  | cons t ts ih =>
    intro acc h
    rw [List.foldl_cons]
    exact ih _ (upsert_keys_nodup init (g t) (key t) acc h)

theorem assocGet_of_mem_nodup {V : Type} :
    ∀ (l : List (String × V)) (c : String) (v : V),
      (c, v) ∈ l → (l.map Prod.fst).Nodup → assocGet l c = some v := by
  intro l
  induction l with
  | nil =>
    intro c v h
    cases h
  | cons p rest ih =>
    obtain ⟨q, w⟩ := p
    intro c v hmem hnd
    rw [List.map_cons, List.nodup_cons] at hnd
    rcases List.mem_cons.mp hmem with heq | h2
    · injection heq with h1 h2
      subst h1
      simp [assocGet, h2]
    · by_cases hq : q = c
      · exfalso
        subst hq
        exact hnd.1 (List.mem_map.mpr ⟨(q, v), h2, rfl⟩)
      · simp only [assocGet, if_neg hq]
        exact ih c v h2 hnd.2

theorem foldl_add_eq_sum (f : Txn → ℚ) :
    ∀ (l : List Txn) (a : ℚ),
      l.foldl (fun acc t => acc + f t) a = a + (l.map f).sum := by
  intro l
  induction l with
  | nil =>
    intro a
    simp
  | cons t ts ih =>
    intro a
    rw [List.foldl_cons, ih, List.map_cons, List.sum_cons]
    ring

theorem sum_map_mul_rate (f : Txn → ℚ) (r : ℚ) :
    ∀ l : List Txn, (l.map f).sum * r = (l.map (fun t => f t * r)).sum := by
  intro l
  induction l with
  | nil => simp
  | cons t ts ih =>
    rw [List.map_cons, List.sum_cons, add_mul, ih, List.map_cons, List.sum_cons]

theorem filter_filter_eq {α : Type} (p q : α → Bool) :
    ∀ l : List α, (l.filter p).filter q = l.filter (fun a => p a && q a) := by
  intro l
  induction l with
  | nil => rfl
  | cons a as ih =>
    by_cases hp : p a = true
    · by_cases hq : q a = true
      · simp [List.filter_cons, hp, hq, ih]
      · simp [List.filter_cons, hp, hq, ih]
    · simp [List.filter_cons, hp, ih]

theorem trendFold_spec (rt : Rates) (dc : String) :
    ∀ (l : List Txn) (b : MonthBucket),
      (l.foldl (fun b t => trendStep rt dc t b) b).expense
          = b.expense + ((l.filter (fun t => t.type = "Expense")).map
              (convertForDisplay (some rt) dc)).sum ∧
      (l.foldl (fun b t => trendStep rt dc t b) b).income
          = b.income + ((l.filter (fun t => !(decide (t.type = "Expense")))).map
              (convertForDisplay (some rt) dc)).sum := by
  intro l
  induction l with
  | nil =>
    intro b
    constructor <;> simp
  | cons t ts ih =>
    intro b
    rw [List.foldl_cons]
    obtain ⟨ihe, ihi⟩ := ih (trendStep rt dc t b)
    by_cases ht : t.type = "Expense"
    · refine ⟨?_, ?_⟩
      · rw [ihe, List.filter_cons]
        rw [if_pos (by simp [ht] : decide (t.type = "Expense") = true)]
        rw [List.map_cons, List.sum_cons]
        simp only [trendStep, if_pos ht]
        ring
      · rw [ihi, List.filter_cons]
        rw [if_neg (by simp [ht] :
          ¬ (!(decide (t.type = "Expense"))) = true)]
        simp only [trendStep, if_pos ht]
    · refine ⟨?_, ?_⟩
      · rw [ihe, List.filter_cons]
        rw [if_neg (by simp [ht] : ¬ decide (t.type = "Expense") = true)]
        simp only [trendStep, if_neg ht]
      · rw [ihi, List.filter_cons]
        rw [if_pos (by simp [ht] :
          (!(decide (t.type = "Expense"))) = true)]
        rw [List.map_cons, List.sum_cons]
        simp only [trendStep, if_neg ht]
        ring

/-- C1 counterexample.  For a transaction whose `originalCurrency` equals
the display currency but whose frozen `amountInBaseCurrency` no longer
round-trips through today's rate, the total the aggregator reports
(`amountInBaseCurrency * rate = 24`) differs from the claimed converted
amount (`originalAmount = 10`): `totalExpense`, `totalIncome` and
`expenseByCategory` do not use the `originalCurrency = displayCurrency`
special case. -/
theorem c1_counterexample :
    (reportData [txnEuro] "EUR" (some [("EUR", 2)])).totalExpense
      ≠ convertForDisplay (some [("EUR", 2)]) "EUR" txnEuro := by
  show (0 + (12 : ℚ)) * jsOr1 (lookupRate [("EUR", 2)] "EUR") ≠ _
  rw [show convertForDisplay (some [("EUR", 2)]) "EUR" txnEuro = 10 from rfl,
    show jsOr1 (lookupRate [("EUR", 2)] "EUR") = 2 from rfl]
  norm_num

/-- C1 (amended).  In the filtered report, `totalExpense`, `totalIncome`
and every `expenseByCategory` value are computed from
`amountInBaseCurrency * (rateTable[displayCurrency] || 1)` for every
transaction — also when `originalCurrency = displayCurrency` — while every
`monthlyTrend` bucket (like the displayed transaction list) uses the
special-case rule `convertForDisplay`: `originalAmount` when the
transaction's `originalCurrency` equals the display currency, and
`amountInBaseCurrency * rate` otherwise. -/
theorem c1_conversion_amended (filtered : List Txn) (dc : String) (rt : Rates) :
    (reportData filtered dc (some rt)).totalExpense
        = ((filtered.filter (fun t => t.type = "Expense")).map
            (fun t => t.amountInBaseCurrency * jsOr1 (lookupRate rt dc))).sum ∧
    (reportData filtered dc (some rt)).totalIncome
        = ((filtered.filter (fun t => t.type = "Income")).map
            (fun t => t.amountInBaseCurrency * jsOr1 (lookupRate rt dc))).sum ∧
    (∀ c v, (c, v) ∈ (reportData filtered dc (some rt)).expenseChartData →
      v = (((filtered.filter (fun t => t.type = "Expense")).filter
              (fun t => t.category = c)).map
            (fun t => t.amountInBaseCurrency * jsOr1 (lookupRate rt dc))).sum) ∧
    (∀ m b, (m, b) ∈ (reportData filtered dc (some rt)).trendChartData →
      b.expense = (((filtered.filter (fun t => ymOf t = m)).filter
              (fun t => t.type = "Expense")).map
            (convertForDisplay (some rt) dc)).sum ∧
      b.income = (((filtered.filter (fun t => ymOf t = m)).filter
              (fun t => !(decide (t.type = "Expense")))).map
            (convertForDisplay (some rt) dc)).sum) := by
  refine ⟨?_, ?_, ?_, ?_⟩
  · show ((filtered.filter (fun t => t.type = "Expense")).foldl
        (fun acc t => acc + t.amountInBaseCurrency) 0)
        * jsOr1 (lookupRate rt dc) = _
    rw [foldl_add_eq_sum, zero_add, sum_map_mul_rate]
  · show ((filtered.filter (fun t => t.type = "Income")).foldl
        (fun acc t => acc + t.amountInBaseCurrency) 0)
        * jsOr1 (lookupRate rt dc) = _
    rw [foldl_add_eq_sum, zero_add, sum_map_mul_rate]
  · intro c v hmem
    have hmem2 : (c, v) ∈ (filtered.filter (fun t => t.type = "Expense")).foldl
        (fun acc t => upsert 0
          (fun w => w + t.amountInBaseCurrency * jsOr1 (lookupRate rt dc))
          t.category acc) [] := by
      exact (List.mem_insertionSort _).mp hmem
    have hnodup := foldl_upsert_keys_nodup (0 : ℚ)
      (fun t w => w + t.amountInBaseCurrency * jsOr1 (lookupRate rt dc))
      (fun t => t.category)
      (filtered.filter (fun t => t.type = "Expense")) [] (by simp)
    have hget := assocGet_of_mem_nodup _ c v hmem2 hnodup
    have hval := assocGet_foldl_upsert (0 : ℚ)
      (fun t w => w + t.amountInBaseCurrency * jsOr1 (lookupRate rt dc))
      (fun t => t.category) c
      (filtered.filter (fun t => t.type = "Expense")) []
    rw [hget] at hval
    simp only [Option.getD_some] at hval
    rw [hval, show (assocGet ([] : List (String × ℚ)) c).getD 0 = 0 from rfl,
      foldl_add_eq_sum (fun t => t.amountInBaseCurrency * jsOr1 (lookupRate rt dc)),
      zero_add]
  · intro m b hmem
    have hmem2 : (m, b) ∈ filtered.foldl
        (fun acc t => upsert (⟨0, 0⟩ : MonthBucket) (trendStep rt dc t)
          (ymOf t) acc) [] := by
      exact (List.mem_insertionSort _).mp hmem
    have hnodup := foldl_upsert_keys_nodup (⟨0, 0⟩ : MonthBucket)
      (trendStep rt dc) ymOf filtered [] (by simp)
    have hget := assocGet_of_mem_nodup _ m b hmem2 hnodup
    have hval := assocGet_foldl_upsert (⟨0, 0⟩ : MonthBucket)
      (trendStep rt dc) ymOf m filtered []
    rw [hget] at hval
    simp only [Option.getD_some] at hval
    have hb : b = (filtered.filter (fun t => ymOf t = m)).foldl
        (fun v t => trendStep rt dc t v) ⟨0, 0⟩ := by
      rw [hval]
      rfl
    obtain ⟨he, hi⟩ := trendFold_spec rt dc
      (filtered.filter (fun t => ymOf t = m)) ⟨0, 0⟩
    rw [hb]
    constructor
    · rw [he]
      simp
    · rw [hi]
      simp

/-- Witness for C1 (amended): with a single EUR expense and display currency
EUR, the only chart entry carries `12 * 2 = 24`, the base amount times
today's rate, not the 10 EUR original amount. -/
theorem c1_witness :
    (("Groceries", (24 : ℚ))
        ∈ (reportData [txnEuro] "EUR" (some [("EUR", 2)])).expenseChartData) ∧
    (24 : ℚ) = ((([txnEuro].filter (fun t => t.type = "Expense")).filter
          (fun t => t.category = "Groceries")).map
        (fun t => t.amountInBaseCurrency * jsOr1 (lookupRate [("EUR", 2)] "EUR"))).sum := by
  have hmem : ("Groceries", (24 : ℚ))
      ∈ (reportData [txnEuro] "EUR" (some [("EUR", 2)])).expenseChartData := by
    show ("Groceries", (24 : ℚ))
      ∈ List.insertionSort (fun a b : String × ℚ => b.2 ≤ a.2)
        [("Groceries", 0 + (12 : ℚ) * jsOr1 (lookupRate [("EUR", 2)] "EUR"))]
    rw [show (0 : ℚ) + 12 * jsOr1 (lookupRate [("EUR", 2)] "EUR") = 24 by
      rw [show jsOr1 (lookupRate [("EUR", 2)] "EUR") = 2 from rfl]
      norm_num]
    simp
  exact ⟨hmem,
    (c1_conversion_amended [txnEuro] "EUR" [("EUR", 2)]).2.2.1 "Groceries" 24 hmem⟩

end FamilyExpenses
